import Mathlib

/-!
Shallow embedding of the concurrent schema materialization engine of
`datamodel/high/3.0/schema.go` (high-level OpenAPI 3.0 schema values built
from a low-level parsed node), together with theorems settling the frozen
claims about it.

The concurrency of `NewSchema` is embedded by making every source of
nondeterminism explicit: a `Schedule` records the order in which the
per-element workers of each composition slot deliver their proxies on the
slot channel, the order in which property workers acquire the lock, and
the order in which completion signals reach the barrier loop.  `NewSchema`
returns `none` exactly when the barrier loop blocks forever under the
given schedule (the Go call never returns).
-/

namespace LibOpenAPI

/-- A pointer to a YAML node owned by the external parser; `none` models a
nil pointer. -/
abbrev YamlNode := Option Nat

/-- Go type `lowmodel.NodeReference[T]`: a value with its key and value nodes. -/
structure NodeReference (α : Type) where
  Value : α
  KeyNode : YamlNode
  ValueNode : YamlNode
  deriving DecidableEq

/-- Modelled from the spec: the low data model (outside src/) exposes an
"is empty" predicate on optional fields; a reference is empty exactly when
the field is absent, i.e. carries no provenance nodes. -/
def NodeReference.IsEmpty (n : NodeReference α) : Bool :=
  n.KeyNode.isNone && n.ValueNode.isNone

/-- Go type `lowmodel.ValueReference[T]`: a value with its value node. -/
structure ValueReference (α : Type) where
  Value : α
  ValueNode : YamlNode
  deriving DecidableEq

/-- Go type `lowmodel.KeyReference[T]`: a value with its key node. -/
structure KeyReference (α : Type) where
  Value : α
  KeyNode : YamlNode
  deriving DecidableEq

/-- Go type `low.SchemaProxy`, never inspected by this core: an identifier. -/
structure LowSchemaProxy where
  id : Nat
  deriving DecidableEq

/-- A Go `any` value, identified but not inspected by this core. -/
structure GoAny where
  id : Nat
  deriving DecidableEq

/-- Go type `low.Discriminator`, a leaf value not inspected by this core. -/
structure LowDiscriminator where
  id : Nat
  deriving DecidableEq

/-- Go type `low.XML`, a leaf value not inspected by this core. -/
structure LowXML where
  id : Nat
  deriving DecidableEq

/-- Go type `low.ExternalDoc`, a leaf value not inspected by this core. -/
structure LowExternalDoc where
  id : Nat
  deriving DecidableEq

/-- Go type `low.Schema`: the low-level node read by `NewSchema`.  Go maps
(`Properties`, `Extensions`) are carried as entry lists whose order is
immaterial. -/
structure LowSchema where
  Title : NodeReference String
  MultipleOf : NodeReference Int
  Maximum : NodeReference Int
  ExclusiveMaximum : NodeReference Int
  Minimum : NodeReference Int
  ExclusiveMinimum : NodeReference Int
  MaxLength : NodeReference Int
  MinLength : NodeReference Int
  Pattern : NodeReference String
  Format : NodeReference String
  MaxItems : NodeReference Int
  MinItems : NodeReference Int
  UniqueItems : NodeReference Int
  MaxProperties : NodeReference Int
  MinProperties : NodeReference Int
  Required : NodeReference (List (ValueReference String))
  Enum : NodeReference (List (ValueReference String))
  «Type» : NodeReference String
  AllOf : NodeReference (List (ValueReference LowSchemaProxy))
  OneOf : NodeReference (List (ValueReference LowSchemaProxy))
  AnyOf : NodeReference (List (ValueReference LowSchemaProxy))
  Not : NodeReference (List (ValueReference LowSchemaProxy))
  Items : NodeReference (List (ValueReference LowSchemaProxy))
  Properties : NodeReference (List (KeyReference String × ValueReference LowSchemaProxy))
  AdditionalProperties : NodeReference GoAny
  Description : NodeReference String
  Default : NodeReference GoAny
  Nullable : NodeReference Bool
  Discriminator : NodeReference LowDiscriminator
  ReadOnly : NodeReference Bool
  WriteOnly : NodeReference Bool
  XML : NodeReference LowXML
  ExternalDocs : NodeReference LowExternalDoc
  Example : NodeReference GoAny
  Deprecated : NodeReference Bool
  Extensions : List (KeyReference String × ValueReference GoAny)
  deriving DecidableEq

/-- High-level `SchemaProxy`: wraps one low-level node reference. -/
structure SchemaProxy where
  schema : NodeReference LowSchemaProxy
  deriving DecidableEq

/-- High-level `Discriminator` (leaf object, outside this core). -/
structure Discriminator where
  low : LowDiscriminator
  deriving DecidableEq

/-- High-level `XML` (leaf object, outside this core). -/
structure XML where
  low : LowXML
  deriving DecidableEq

/-- High-level `ExternalDoc` (leaf object, outside this core). -/
structure ExternalDoc where
  low : LowExternalDoc
  deriving DecidableEq

/-- Modelled from the spec: the trivial leaf constructor for discriminators
(single-field descriptor object, outside src/). -/
def NewDiscriminator (d : LowDiscriminator) : Discriminator := ⟨d⟩

/-- Modelled from the spec: the trivial leaf constructor for XML metadata
(single-field descriptor object, outside src/). -/
def NewXML (x : LowXML) : XML := ⟨x⟩

/-- Modelled from the spec: the trivial leaf constructor for external docs
(single-field descriptor object, outside src/). -/
def NewExternalDoc (e : LowExternalDoc) : ExternalDoc := ⟨e⟩

/-- Modelled from the spec: "extraction of an extensions mapping" — the
routine `high.ExtractExtensions` lives outside src/; it carries the key
and value of each extension entry into a plain mapping. -/
def ExtractExtensions (ext : List (KeyReference String × ValueReference GoAny)) :
    List (String × GoAny) :=
  ext.map (fun e => (e.1.Value, e.2.Value))

/-- The high-level `Schema` value produced by `NewSchema`.  The Go
`Properties` map is represented canonically as a key-sorted association
list, since a Go map carries no observable entry order. -/
structure Schema where
  Title : String
  MultipleOf : Int
  Maximum : Int
  ExclusiveMaximum : Int
  Minimum : Int
  ExclusiveMinimum : Int
  MaxLength : Int
  MinLength : Int
  Pattern : String
  Format : String
  MaxItems : Int
  MinItems : Int
  UniqueItems : Int
  MaxProperties : Int
  MinProperties : Int
  Required : List String
  Enum : List String
  «Type» : String
  AllOf : List SchemaProxy
  OneOf : List SchemaProxy
  AnyOf : List SchemaProxy
  Not : List SchemaProxy
  Items : List SchemaProxy
  Properties : List (String × SchemaProxy)
  AdditionalProperties : GoAny
  Description : String
  Default : GoAny
  Nullable : Bool
  Discriminator : Option Discriminator
  ReadOnly : Bool
  WriteOnly : Bool
  XML : Option XML
  ExternalDocs : Option ExternalDoc
  Example : GoAny
  Deprecated : Bool
  Extensions : List (String × GoAny)
  low : LowSchema
  deriving DecidableEq

/-- Go method `(*Schema).GoLow`: the provenance accessor. -/
def Schema.GoLow (s : Schema) : LowSchema := s.low

/-- The child worker of `buildOutSchema` (`buildSchemaChild`): wraps one
element into a proxy carrying its value and value node (the key node is
left nil). -/
def buildSchemaChild (sch : ValueReference LowSchemaProxy) : SchemaProxy :=
  { schema := { Value := sch.Value, KeyNode := none, ValueNode := sch.ValueNode } }

/-- The slot coordinator of `buildOutSchema`: one worker per element sends
its proxy on the slot channel and the coordinator appends in arrival
order, so the output is the wrapped elements in whatever order they were
received.  `arrival` is that delivery order (a permutation of the element
list of the slot). -/
def buildOutSchema (arrival : List (ValueReference LowSchemaProxy)) : List SchemaProxy :=
  arrival.map buildSchemaChild

/-- Insertion into the canonical (key-sorted) representation of a Go map:
replaces the value when the key is present, otherwise inserts at the
key-ordered position. -/
def mapInsert (m : List (String × SchemaProxy)) (key : String) (v : SchemaProxy) :
    List (String × SchemaProxy) :=
  match m with
  | [] => [(key, v)]
  | (k, w) :: rest =>
    if key = k then (key, v) :: rest
    else if key < k then (key, v) :: (k, w) :: rest
    else (k, w) :: mapInsert rest key v

/-- Go map indexing on the canonical representation. -/
def mapLookup (m : List (String × SchemaProxy)) (key : String) : Option SchemaProxy :=
  match m with
  | [] => none
  | (k, w) :: rest => if key = k then some w else mapLookup rest key

/-- The proxy a property worker builds for entry `(k, v)`: it carries the
value, the key node and the value node. -/
def propProxy (k : KeyReference String) (v : ValueReference LowSchemaProxy) : SchemaProxy :=
  { schema := { Value := v.Value, KeyNode := k.KeyNode, ValueNode := v.ValueNode } }

/-- One `buildProps` worker: under the lock it writes `props[k.Value]`. -/
def buildProps (k : KeyReference String) (v : ValueReference LowSchemaProxy)
    (props : List (String × SchemaProxy)) : List (String × SchemaProxy) :=
  mapInsert props k.Value (propProxy k v)

/-- All property workers: each entry is inserted once, in the order the
workers acquire the lock (`arrival`, a permutation of the entry list). -/
def buildPropsAll (arrival : List (KeyReference String × ValueReference LowSchemaProxy)) :
    List (String × SchemaProxy) :=
  arrival.foldl (fun m e => buildProps e.1 e.2 m) []

/-- A completion signal received by the barrier loop: from a slot
coordinator (`polyCompletedChan`) or a property worker (`propsChan`). -/
inductive Signal where
  | poly : Signal
  | prop : Signal
  deriving DecidableEq

/-- Source expression `totalProps := len(schema.Properties.Value)`. -/
def totalProps (schema : LowSchema) : Nat := schema.Properties.Value.length

/-- Source expression `totalChildren`: the sum of the element counts of
the five composition slots, exactly as the source computes it. -/
def totalChildren (schema : LowSchema) : Nat :=
  schema.AllOf.Value.length + schema.OneOf.Value.length + schema.AnyOf.Value.length +
    schema.Items.Value.length + schema.Not.Value.length

/-- The number of signals that will ever reach `polyCompletedChan`: one
per composition slot whose reference is not empty, since the coordinator
of each such slot is launched once and signals once after all its elements
arrived. -/
def polySignals (schema : LowSchema) : Nat :=
  (if schema.AllOf.IsEmpty then 0 else 1) + (if schema.AnyOf.IsEmpty then 0 else 1) +
    (if schema.OneOf.IsEmpty then 0 else 1) + (if schema.Not.IsEmpty then 0 else 1) +
    (if schema.Items.IsEmpty then 0 else 1)

/-- The barrier loop of `NewSchema`: consume signals in arrival order,
incrementing `completeChildren` on a poly signal and `completedProps` on a
props signal, and break (`true`) as soon as both counters equal their
targets; if the signal stream is exhausted without breaking, the `select`
blocks forever (`false`). -/
def barrierLoop : List Signal → Nat → Nat → Nat → Nat → Bool
  | [], _, _, _, _ => false
  | Signal.poly :: rest, completeChildren, completedProps, tc, tp =>
    if tp = completedProps ∧ tc = completeChildren + 1 then true
    else barrierLoop rest (completeChildren + 1) completedProps tc tp
  | Signal.prop :: rest, completeChildren, completedProps, tc, tp =>
    if tp = completedProps + 1 ∧ tc = completeChildren then true
    else barrierLoop rest completeChildren (completedProps + 1) tc tp

/-- The guard `totalProps+totalChildren > 0` deciding whether the barrier
wait loop is entered at all. -/
def barrierEntered (schema : LowSchema) : Bool :=
  decide (0 < totalProps schema + totalChildren schema)

/-- The resolution, for one run, of every scheduling choice the Go runtime
makes: per-slot channel delivery orders, the lock-acquisition order of
property workers, and the arrival order of completion signals at the
barrier. -/
structure Schedule where
  allOfArrival : List (ValueReference LowSchemaProxy)
  oneOfArrival : List (ValueReference LowSchemaProxy)
  anyOfArrival : List (ValueReference LowSchemaProxy)
  notArrival : List (ValueReference LowSchemaProxy)
  itemsArrival : List (ValueReference LowSchemaProxy)
  propsArrival : List (KeyReference String × ValueReference LowSchemaProxy)
  signalArrival : List Signal
  deriving DecidableEq

/-- A schedule is realizable for a node when each arrival order is a
permutation of the corresponding input and the signal stream consists of
one poly signal per launched coordinator and one props signal per property
worker, in some order. -/
def Schedule.Valid (sched : Schedule) (schema : LowSchema) : Prop :=
  sched.allOfArrival.Perm schema.AllOf.Value ∧
    sched.oneOfArrival.Perm schema.OneOf.Value ∧
    sched.anyOfArrival.Perm schema.AnyOf.Value ∧
    sched.notArrival.Perm schema.Not.Value ∧
    sched.itemsArrival.Perm schema.Items.Value ∧
    sched.propsArrival.Perm schema.Properties.Value ∧
    sched.signalArrival.Perm
      (List.replicate (polySignals schema) Signal.poly ++
        List.replicate (totalProps schema) Signal.prop)

instance (sched : Schedule) (schema : LowSchema) : Decidable (sched.Valid schema) := by
  unfold Schedule.Valid
  infer_instance

/-- Well-formedness of the low-level node, from the spec: a composition
category is present exactly when it has at least one element, and property
keys are guaranteed distinct by the low-level structure. -/
def LowSchema.WellFormed (schema : LowSchema) : Prop :=
  schema.AllOf.IsEmpty = schema.AllOf.Value.isEmpty ∧
    schema.OneOf.IsEmpty = schema.OneOf.Value.isEmpty ∧
    schema.AnyOf.IsEmpty = schema.AnyOf.Value.isEmpty ∧
    schema.Not.IsEmpty = schema.Not.Value.isEmpty ∧
    schema.Items.IsEmpty = schema.Items.Value.isEmpty ∧
    (schema.Properties.Value.map (fun e => e.1.Value)).Nodup

instance (schema : LowSchema) : Decidable schema.WellFormed := by
  unfold LowSchema.WellFormed
  infer_instance

/-- The fully populated value `NewSchema` assembles: scalar fields are
value copies, `UniqueItems` keeps the zero value `new(Schema)` gave it,
required and enum references are flattened, the output of each launched
slot is the arrival-order sequence of its coordinator, and the property
map holds the worker inserts in lock order. -/
def buildResult (schema : LowSchema) (sched : Schedule) : Schema where
  Title := schema.Title.Value
  MultipleOf := schema.MultipleOf.Value
  Maximum := schema.Maximum.Value
  ExclusiveMaximum := schema.ExclusiveMaximum.Value
  Minimum := schema.Minimum.Value
  ExclusiveMinimum := schema.ExclusiveMinimum.Value
  MaxLength := schema.MaxLength.Value
  MinLength := schema.MinLength.Value
  Pattern := schema.Pattern.Value
  Format := schema.Format.Value
  MaxItems := schema.MaxItems.Value
  MinItems := schema.MinItems.Value
  UniqueItems := 0
  MaxProperties := schema.MaxProperties.Value
  MinProperties := schema.MinProperties.Value
  Required := schema.Required.Value.map (fun r => r.Value)
  Enum := schema.Enum.Value.map (fun e => e.Value)
  «Type» := schema.«Type».Value
  AllOf := if schema.AllOf.IsEmpty then [] else buildOutSchema sched.allOfArrival
  OneOf := if schema.OneOf.IsEmpty then [] else buildOutSchema sched.oneOfArrival
  AnyOf := if schema.AnyOf.IsEmpty then [] else buildOutSchema sched.anyOfArrival
  Not := if schema.Not.IsEmpty then [] else buildOutSchema sched.notArrival
  Items := if schema.Items.IsEmpty then [] else buildOutSchema sched.itemsArrival
  Properties := buildPropsAll sched.propsArrival
  AdditionalProperties := schema.AdditionalProperties.Value
  Description := schema.Description.Value
  Default := schema.Default.Value
  Nullable := schema.Nullable.Value
  Discriminator :=
    if schema.Discriminator.IsEmpty then none
    else some (NewDiscriminator schema.Discriminator.Value)
  ReadOnly := schema.ReadOnly.Value
  WriteOnly := schema.WriteOnly.Value
  XML := if schema.XML.IsEmpty then none else some (NewXML schema.XML.Value)
  ExternalDocs :=
    if schema.ExternalDocs.IsEmpty then none
    else some (NewExternalDoc schema.ExternalDocs.Value)
  Example := schema.Example.Value
  Deprecated := schema.Deprecated.Value
  Extensions := ExtractExtensions schema.Extensions
  low := schema

/-- Function `NewSchema` under a given schedule: if the barrier is entered
and the loop never breaks under the signal order of the schedule, the call
blocks forever (`none`); otherwise it returns the assembled value. -/
def NewSchema (schema : LowSchema) (sched : Schedule) : Option Schema :=
  if barrierEntered schema then
    if barrierLoop sched.signalArrival 0 0 (totalChildren schema) (totalProps schema) then
      some (buildResult schema sched)
    else none
  else some (buildResult schema sched)

/-! ### Concrete inputs used by counterexamples and witnesses -/

/-- A node reference for an absent field. -/
def emptyRef (a : α) : NodeReference α :=
  { Value := a, KeyNode := none, ValueNode := none }

/-- A node reference for a present field, with provenance nodes. -/
def presentRef (a : α) (n : Nat) : NodeReference α :=
  { Value := a, KeyNode := some n, ValueNode := some (n + 1) }

/-- First sample child-schema reference. -/
def refA : ValueReference LowSchemaProxy := { Value := ⟨10⟩, ValueNode := some 100 }

/-- Second sample child-schema reference. -/
def refB : ValueReference LowSchemaProxy := { Value := ⟨11⟩, ValueNode := some 101 }

/-- A sample property entry with key "x". -/
def propX : KeyReference String × ValueReference LowSchemaProxy :=
  ({ Value := "x", KeyNode := some 200 }, { Value := ⟨12⟩, ValueNode := some 201 })

/-- A low-level node with populated scalar fields and every structural
field absent. -/
def baseLow : LowSchema where
  Title := presentRef "sample" 1
  MultipleOf := presentRef 2 3
  Maximum := presentRef 100 5
  ExclusiveMaximum := presentRef 99 7
  Minimum := presentRef 1 9
  ExclusiveMinimum := presentRef 0 11
  MaxLength := presentRef 64 13
  MinLength := presentRef 1 15
  Pattern := presentRef "[a-z]+" 17
  Format := presentRef "int64" 19
  MaxItems := presentRef 9 21
  MinItems := presentRef 2 23
  UniqueItems := presentRef 5 25
  MaxProperties := presentRef 8 27
  MinProperties := presentRef 1 29
  Required := presentRef [{ Value := "r1", ValueNode := some 300 },
    { Value := "r2", ValueNode := some 301 }] 31
  Enum := presentRef [{ Value := "e1", ValueNode := some 310 }] 33
  «Type» := presentRef "object" 35
  AllOf := emptyRef []
  OneOf := emptyRef []
  AnyOf := emptyRef []
  Not := emptyRef []
  Items := emptyRef []
  Properties := emptyRef []
  AdditionalProperties := presentRef ⟨50⟩ 37
  Description := presentRef "a sample schema" 39
  Default := presentRef ⟨51⟩ 41
  Nullable := presentRef true 43
  Discriminator := emptyRef ⟨0⟩
  ReadOnly := presentRef false 45
  WriteOnly := presentRef true 47
  XML := emptyRef ⟨0⟩
  ExternalDocs := emptyRef ⟨0⟩
  Example := presentRef ⟨52⟩ 49
  Deprecated := presentRef true 51
  Extensions := [({ Value := "x-a", KeyNode := some 400 }, { Value := ⟨53⟩, ValueNode := some 401 })]

/-- Witness input: one AllOf element and one property. -/
def exSchema : LowSchema :=
  { baseLow with AllOf := presentRef [refA] 60, Properties := presentRef [propX] 62 }

/-- A schedule realizing `exSchema`. -/
def exSched : Schedule where
  allOfArrival := [refA]
  oneOfArrival := []
  anyOfArrival := []
  notArrival := []
  itemsArrival := []
  propsArrival := [propX]
  signalArrival := [Signal.poly, Signal.prop]

/-- A second schedule for `exSchema`, with the signals reversed. -/
def exSched2 : Schedule :=
  { exSched with signalArrival := [Signal.prop, Signal.poly] }

/-- The value the witness run returns. -/
def resultEx : Schema := buildResult exSchema exSched

/-- A schedule realizing `baseLow` (no workers at all). -/
def emptySched : Schedule where
  allOfArrival := []
  oneOfArrival := []
  anyOfArrival := []
  notArrival := []
  itemsArrival := []
  propsArrival := []
  signalArrival := []

/-- Failing input for the barrier accounting: a single composition slot
holding two elements and nothing else. -/
def cExBarrier : LowSchema := { baseLow with AllOf := presentRef [refA, refB] 60 }

/-- The unique realizable schedule shape for `cExBarrier`: its one
coordinator signals once. -/
def schedBarrier : Schedule where
  allOfArrival := [refA, refB]
  oneOfArrival := []
  anyOfArrival := []
  notArrival := []
  itemsArrival := []
  propsArrival := []
  signalArrival := [Signal.poly]

/-- Five distinct child-schema references for the large failing input. -/
def allOf5 : List (ValueReference LowSchemaProxy) :=
  (List.range 5).map (fun i => { Value := ⟨100 + i⟩, ValueNode := some (500 + i) })

/-- A thousand property entries with pairwise distinct keys. -/
def props1000 : List (KeyReference String × ValueReference LowSchemaProxy) :=
  (List.range 1000).map (fun i =>
    ({ Value := String.mk (List.replicate i 'a'), KeyNode := some (10000 + i) },
     { Value := ⟨20000 + i⟩, ValueNode := some (30000 + i) }))

/-- The stress input named by the spec: five elements in a composition
slot and a thousand properties. -/
def cExLarge : LowSchema :=
  { baseLow with AllOf := presentRef allOf5 60, Properties := presentRef props1000 62 }

/-- A schedule realizing `cExLarge`: the one coordinator signal followed by
the thousand property signals. -/
def schedLarge : Schedule where
  allOfArrival := allOf5
  oneOfArrival := []
  anyOfArrival := []
  notArrival := []
  itemsArrival := []
  propsArrival := props1000
  signalArrival := Signal.poly :: List.replicate 1000 Signal.prop

/-! ### Helper lemmas -/

/-- Whenever `NewSchema` returns a value, it is the assembled result. -/
theorem newSchema_some_eq {schema : LowSchema} {sched : Schedule} {s : Schema}
    (h : NewSchema schema sched = some s) : s = buildResult schema sched := by
  unfold NewSchema at h
  split at h
  · split at h
    · exact (Option.some.inj h).symm
    · exact absurd h (by simp)
  · exact (Option.some.inj h).symm

/-- When the barrier is entered and `NewSchema` returns, the loop broke. -/
theorem newSchema_some_release {schema : LowSchema} {sched : Schedule} {s : Schema}
    (h : NewSchema schema sched = some s) (hb : barrierEntered schema = true) :
    barrierLoop sched.signalArrival 0 0 (totalChildren schema) (totalProps schema) = true := by
  unfold NewSchema at h
  rw [hb] at h
  simp only [if_true] at h
  by_contra hfalse
  rw [Bool.not_eq_true] at hfalse
  rw [hfalse] at h
  simp at h

/-- The number of poly signals in a signal stream. -/
def countPoly (l : List Signal) : Nat :=
  l.countP (fun s => decide (s = Signal.poly))

theorem countPoly_nil : countPoly [] = 0 := rfl

theorem countPoly_cons_poly (rest : List Signal) :
    countPoly (Signal.poly :: rest) = countPoly rest + 1 := by
  unfold countPoly
  rw [List.countP_cons]
  simp

theorem countPoly_cons_prop (rest : List Signal) :
    countPoly (Signal.prop :: rest) = countPoly rest := by
  unfold countPoly
  rw [List.countP_cons]
  simp

/-- counting poly signals in the canonical signal multiset. -/
theorem countPoly_signals (P TP : Nat) :
    countPoly (List.replicate P Signal.poly ++ List.replicate TP Signal.prop) = P := by
  unfold countPoly
  rw [List.countP_append]
  have h1 : (List.replicate P Signal.poly).countP (fun s => decide (s = Signal.poly)) = P := by
    induction P with
    | zero => rfl
    | succ k ih => rw [List.replicate_succ, List.countP_cons, ih]; simp
  have h2 : (List.replicate TP Signal.prop).countP (fun s => decide (s = Signal.poly)) = 0 := by
    induction TP with
    | zero => rfl
    | succ k ih => rw [List.replicate_succ, List.countP_cons, ih]; simp
  rw [h1, h2]
  omega

/-- countPoly is invariant under permutation of the stream. -/
theorem countPoly_perm {l t : List Signal} (h : l.Perm t) : countPoly l = countPoly t :=
  h.countP_eq _

/-- If the barrier loop ever breaks, the target child count is bounded by
the current counter plus the poly signals still to arrive: the loop cannot
collect more slot-completion signals than are ever sent. -/
theorem barrierLoop_poly_bound (sigs : List Signal) (c p tc tp : Nat)
    (h : barrierLoop sigs c p tc tp = true) : tc ≤ c + countPoly sigs := by
  induction sigs generalizing c p with
  | nil => simp [barrierLoop] at h
  | cons sig rest ih =>
    cases sig with
    | poly =>
      rw [countPoly_cons_poly]
      simp only [barrierLoop] at h
      split at h
      · omega
      · have := ih (c + 1) p h
        omega
    | prop =>
      rw [countPoly_cons_prop]
      simp only [barrierLoop] at h
      split at h
      · omega
      · exact ih c (p + 1) h

/-- Arithmetic core of the release analysis: if each of five slots
contributes its element count to the target but at most one signal, a
released barrier forces every slot to hold at most one element. -/
theorem slot_lengths_le_one (a b c d e : Nat)
    (h : a + b + c + d + e ≤ 0 + ((if a = 0 then 0 else 1) + (if c = 0 then 0 else 1) +
      (if b = 0 then 0 else 1) + (if e = 0 then 0 else 1) + (if d = 0 then 0 else 1))) :
    a ≤ 1 ∧ b ≤ 1 ∧ c ≤ 1 ∧ d ≤ 1 ∧ e ≤ 1 := by
  split_ifs at h <;> omega

theorem ite_isEmpty_len {α : Type} (l : List α) :
    (if l.isEmpty then (0 : Nat) else 1) = if l.length = 0 then 0 else 1 := by
  cases l <;> simp

/-- A permutation of a list with at most one element is that list. -/
theorem perm_eq_of_short {α : Type} {l t : List α} (h : l.Perm t) (hlen : t.length ≤ 1) :
    l = t := by
  cases t with
  | nil => exact h.eq_nil
  | cons a t2 =>
    have ht2 : t2 = [] := by
      cases t2 with
      | nil => rfl
      | cons b t3 => simp at hlen
    subst ht2
    exact List.perm_singleton.mp h

theorem mapLookup_mapInsert_self (m : List (String × SchemaProxy)) (key : String)
    (v : SchemaProxy) : mapLookup (mapInsert m key v) key = some v := by
  induction m with
  | nil => simp [mapInsert, mapLookup]
  | cons hd rest ih =>
    obtain ⟨k, w⟩ := hd
    by_cases h1 : key = k
    · simp [mapInsert, h1, mapLookup]
    · by_cases h2 : key < k
      · simp [mapInsert, h1, h2, mapLookup]
      · simp [mapInsert, h1, h2, mapLookup, ih]

theorem mapLookup_mapInsert_ne (m : List (String × SchemaProxy)) (key : String)
    (v : SchemaProxy) (k : String) (h : k ≠ key) :
    mapLookup (mapInsert m key v) k = mapLookup m k := by
  induction m with
  | nil => simp [mapInsert, mapLookup, h]
  | cons hd rest ih =>
    obtain ⟨k2, w⟩ := hd
    by_cases h1 : key = k2
    · subst h1
      simp [mapInsert, mapLookup, h]
    · by_cases h2 : key < k2
      · simp [mapInsert, h1, h2, mapLookup, h]
      · simp [mapInsert, h1, h2, mapLookup, ih]

theorem length_mapInsert_fresh (m : List (String × SchemaProxy)) (key : String)
    (v : SchemaProxy) (h : mapLookup m key = none) :
    (mapInsert m key v).length = m.length + 1 := by
  induction m with
  | nil => simp [mapInsert]
  | cons hd rest ih =>
    obtain ⟨k, w⟩ := hd
    simp only [mapLookup] at h
    split at h
    · exact absurd h (by simp)
    · rename_i h1
      by_cases h2 : key < k
      · simp [mapInsert, h1, h2]
      · simp only [mapInsert, if_neg h1, if_neg h2, List.length_cons, ih h]

/-- Inserts for distinct keys commute, which is why the content of the
property map does not depend on the order in which workers take the
lock. -/
theorem mapInsert_comm (m : List (String × SchemaProxy)) (k1 k2 : String)
    (v1 v2 : SchemaProxy) (h : k1 ≠ k2) :
    mapInsert (mapInsert m k1 v1) k2 v2 = mapInsert (mapInsert m k2 v2) k1 v1 := by
  induction m with
  | nil =>
    rcases lt_trichotomy k1 k2 with hlt | heq | hgt
    · simp [mapInsert, h, Ne.symm h, hlt, asymm hlt]
    · exact absurd heq h
    · simp [mapInsert, h, Ne.symm h, hgt, asymm hgt]
  | cons hd rest ih =>
    obtain ⟨k, w⟩ := hd
    by_cases e1 : k1 = k
    · subst e1
      by_cases l2 : k2 < k1
      · simp [mapInsert, h, Ne.symm h, l2, asymm l2]
      · simp [mapInsert, h, Ne.symm h, l2]
    · by_cases e2 : k2 = k
      · subst e2
        by_cases l1 : k1 < k2
        · simp [mapInsert, h, Ne.symm h, e1, l1, asymm l1]
        · simp [mapInsert, h, Ne.symm h, e1, l1]
      · by_cases l1 : k1 < k <;> by_cases l2 : k2 < k
        · rcases lt_trichotomy k1 k2 with hlt | heq | hgt
          · simp [mapInsert, e1, e2, l1, l2, h, Ne.symm h, hlt, asymm hlt]
          · exact absurd heq h
          · simp [mapInsert, e1, e2, l1, l2, h, Ne.symm h, hgt, asymm hgt]
        · have hn : ¬ k2 < k1 := fun hh => l2 (lt_trans hh l1)
          simp [mapInsert, e1, e2, l1, l2, h, Ne.symm h, hn]
        · have hn : ¬ k1 < k2 := fun hh => l1 (lt_trans hh l2)
          simp [mapInsert, e1, e2, l1, l2, h, Ne.symm h, hn]
        · simp [mapInsert, e1, e2, l1, l2, ih]

theorem buildPropsFold_lookup_absent
    (l : List (KeyReference String × ValueReference LowSchemaProxy))
    (m : List (String × SchemaProxy)) (key : String)
    (h : ∀ e ∈ l, e.1.Value ≠ key) :
    mapLookup (l.foldl (fun acc e => buildProps e.1 e.2 acc) m) key = mapLookup m key := by
  induction l generalizing m with
  | nil => rfl
  | cons a l ih =>
    rw [List.foldl_cons]
    rw [ih _ (fun e he => h e (List.mem_cons_of_mem a he))]
    exact mapLookup_mapInsert_ne m a.1.Value _ key
      (Ne.symm (h a (List.mem_cons_self a l)))

theorem buildPropsFold_lookup_mem
    (l : List (KeyReference String × ValueReference LowSchemaProxy))
    (m : List (String × SchemaProxy))
    (e : KeyReference String × ValueReference LowSchemaProxy) (he : e ∈ l)
    (hnd : (l.map (fun x => x.1.Value)).Nodup) :
    mapLookup (l.foldl (fun acc x => buildProps x.1 x.2 acc) m) e.1.Value
      = some (propProxy e.1 e.2) := by
  induction l generalizing m with
  | nil => cases he
  | cons a l ih =>
    rw [List.foldl_cons]
    rcases List.mem_cons.mp he with heq | hmem
    · subst heq
      have hhead : e.1.Value ∉ l.map (fun y => y.1.Value) := by
        rw [List.map_cons, List.nodup_cons] at hnd
        exact hnd.1
      have hfresh : ∀ x ∈ l, x.1.Value ≠ e.1.Value := by
        intro x hx hcontra
        exact hhead (hcontra ▸ List.mem_map_of_mem _ hx)
      rw [buildPropsFold_lookup_absent l _ _ hfresh]
      exact mapLookup_mapInsert_self m e.1.Value _
    · have hnd2 : (l.map (fun x => x.1.Value)).Nodup := by
        rw [List.map_cons, List.nodup_cons] at hnd
        exact hnd.2
      exact ih _ hmem hnd2

theorem buildPropsFold_length
    (l : List (KeyReference String × ValueReference LowSchemaProxy))
    (m : List (String × SchemaProxy))
    (hfresh : ∀ e ∈ l, mapLookup m e.1.Value = none)
    (hnd : (l.map (fun x => x.1.Value)).Nodup) :
    (l.foldl (fun acc x => buildProps x.1 x.2 acc) m).length = m.length + l.length := by
  induction l generalizing m with
  | nil => simp
  | cons a l ih =>
    rw [List.foldl_cons]
    have h1 : (buildProps a.1 a.2 m).length = m.length + 1 :=
      length_mapInsert_fresh m a.1.Value _ (hfresh a (List.mem_cons_self a l))
    have hhead : a.1.Value ∉ l.map (fun y => y.1.Value) := by
      rw [List.map_cons, List.nodup_cons] at hnd
      exact hnd.1
    have hnd2 : (l.map (fun x => x.1.Value)).Nodup := by
      rw [List.map_cons, List.nodup_cons] at hnd
      exact hnd.2
    have h2 : ∀ e ∈ l, mapLookup (buildProps a.1 a.2 m) e.1.Value = none := by
      intro e he
      have hne : e.1.Value ≠ a.1.Value := by
        intro hcontra
        exact hhead (hcontra ▸ List.mem_map_of_mem _ he)
      unfold buildProps
      rw [mapLookup_mapInsert_ne m a.1.Value _ e.1.Value hne]
      exact hfresh e (List.mem_cons_of_mem a he)
    rw [ih _ h2 hnd2, h1]
    simp [List.length_cons]
    omega

/-- The property map has one entry per distinct-keyed input entry. -/
theorem buildPropsAll_length
    (l : List (KeyReference String × ValueReference LowSchemaProxy))
    (hnd : (l.map (fun x => x.1.Value)).Nodup) :
    (buildPropsAll l).length = l.length := by
  unfold buildPropsAll
  rw [buildPropsFold_length l [] (fun e _ => rfl) hnd]
  simp

/-- Each entry of the property map wraps the value reference associated
with its key. -/
theorem buildPropsAll_lookup
    (l : List (KeyReference String × ValueReference LowSchemaProxy))
    (e : KeyReference String × ValueReference LowSchemaProxy) (he : e ∈ l)
    (hnd : (l.map (fun x => x.1.Value)).Nodup) :
    mapLookup (buildPropsAll l) e.1.Value = some (propProxy e.1 e.2) :=
  buildPropsFold_lookup_mem l [] e he hnd

/-- With distinct keys, the built property map does not depend on the
lock-acquisition order of the workers. -/
theorem buildPropsAll_perm_eq
    (l1 l2 : List (KeyReference String × ValueReference LowSchemaProxy))
    (hperm : l1.Perm l2) (hnd : (l1.map (fun e => e.1.Value)).Nodup) :
    buildPropsAll l1 = buildPropsAll l2 := by
  unfold buildPropsAll
  refine hperm.foldl_eq' ?_ []
  intro x hx y hy z
  by_cases hxy : x = y
  · subst hxy
    rfl
  · have hk : x.1.Value ≠ y.1.Value := by
      intro hcontra
      exact hxy (List.inj_on_of_nodup_map hnd hx hy hcontra)
    exact mapInsert_comm z x.1.Value y.1.Value (propProxy x.1 x.2) (propProxy y.1 y.2) hk

/-- If the barrier releases under a realizable schedule, every composition
slot of a well-formed node holds at most one element: the child target of
the loop is the element total, while only one signal per launched slot can
ever arrive. -/
theorem slot_short_of_release (schema : LowSchema) (sched : Schedule)
    (hwf : schema.WellFormed) (hv : sched.Valid schema)
    (hrel : barrierLoop sched.signalArrival 0 0 (totalChildren schema)
      (totalProps schema) = true) :
    schema.AllOf.Value.length ≤ 1 ∧ schema.OneOf.Value.length ≤ 1 ∧
      schema.AnyOf.Value.length ≤ 1 ∧ schema.Not.Value.length ≤ 1 ∧
      schema.Items.Value.length ≤ 1 := by
  have hbound := barrierLoop_poly_bound _ _ _ _ _ hrel
  have hcount : countPoly sched.signalArrival = polySignals schema := by
    rw [countPoly_perm hv.2.2.2.2.2.2]
    exact countPoly_signals _ _
  rw [hcount] at hbound
  obtain ⟨w1, w2, w3, w4, w5, _⟩ := hwf
  unfold totalChildren polySignals at hbound
  rw [w1, w2, w3, w4, w5] at hbound
  rw [ite_isEmpty_len, ite_isEmpty_len, ite_isEmpty_len, ite_isEmpty_len,
    ite_isEmpty_len] at hbound
  have hres := slot_lengths_le_one schema.AllOf.Value.length schema.OneOf.Value.length
    schema.AnyOf.Value.length schema.Items.Value.length schema.Not.Value.length hbound
  exact ⟨hres.1, hres.2.1, hres.2.2.1, hres.2.2.2.2, hres.2.2.2.1⟩

theorem slot_length_eq (isE : Bool) (arrival value : List (ValueReference LowSchemaProxy))
    (hw : isE = value.isEmpty) (hp : arrival.Perm value) :
    (if isE then ([] : List SchemaProxy) else buildOutSchema arrival).length = value.length := by
  cases value with
  | nil =>
    simp only [List.isEmpty_nil] at hw
    rw [hw]
    simp
  | cons a t =>
    have hf : isE = false := by rw [hw]; rfl
    rw [hf]
    simp [buildOutSchema, hp.length_eq]

/-! ### Claims -/

/-- C1: the claim says the expected barrier signal total is the number
of non-empty composition slots plus the number of property entries, with
one coordinator signal per slot, so the barrier releases once all have
signalled.  The code instead targets the total element count: on a node
whose AllOf slot holds two elements, the target is 2, only one poly signal
is ever sent, the loop never breaks, and `NewSchema` never returns. -/
theorem C1_barrier_counts_elements_not_slots :
    totalChildren cExBarrier = 2 ∧ polySignals cExBarrier = 1 ∧ totalProps cExBarrier = 0 ∧
      schedBarrier.Valid cExBarrier ∧
      barrierLoop schedBarrier.signalArrival 0 0 (totalChildren cExBarrier)
        (totalProps cExBarrier) = false ∧
      NewSchema cExBarrier schedBarrier = none := by
  refine ⟨rfl, rfl, rfl, by decide, rfl, rfl⟩

/-- C3: the claim says each slot output sequence preserves input order
regardless of worker completion order.  The coordinator appends in arrival
order: when the worker for the second element delivers first, position 0
of the output wraps input element 1, not input element 0. -/
theorem C3_output_order_is_arrival_order :
    List.Perm [refB, refA] [refA, refB] ∧
      buildOutSchema [refB, refA] = [buildSchemaChild refB, buildSchemaChild refA] ∧
      (buildOutSchema [refB, refA])[0]? = some (buildSchemaChild refB) ∧
      ([refA, refB])[0]? = some refA ∧
      buildSchemaChild refB ≠ buildSchemaChild refA := by
  refine ⟨by decide, rfl, rfl, rfl, by decide⟩

/-- C9: a node with zero property entries and zero composition elements
never enters the barrier wait loop, and `NewSchema` returns under every
schedule. -/
theorem C9_empty_input_skips_barrier (schema : LowSchema) (sched : Schedule)
    (hp : schema.Properties.Value = [])
    (h1 : schema.AllOf.Value = []) (h2 : schema.OneOf.Value = [])
    (h3 : schema.AnyOf.Value = []) (h4 : schema.Not.Value = [])
    (h5 : schema.Items.Value = []) :
    barrierEntered schema = false ∧
      NewSchema schema sched = some (buildResult schema sched) := by
  have hz : totalProps schema + totalChildren schema = 0 := by
    unfold totalProps totalChildren
    rw [hp, h1, h2, h3, h4, h5]
    rfl
  have hb : barrierEntered schema = false := by
    unfold barrierEntered
    rw [hz]
    rfl
  refine ⟨hb, ?_⟩
  unfold NewSchema
  rw [hb]
  simp

theorem C9_witness :
    barrierEntered baseLow = false ∧
      NewSchema baseLow emptySched = some (buildResult baseLow emptySched) :=
  C9_empty_input_skips_barrier baseLow emptySched rfl rfl rfl rfl rfl rfl

/-- C7: every scalar field of the returned value is the `Value` of the
corresponding low-level field; the copies do not depend on the schedule, the
shallow counterpart of their being made synchronously before any worker
is launched. -/
theorem C7_scalar_fields_copied (schema : LowSchema) (sched : Schedule) (s : Schema)
    (h : NewSchema schema sched = some s) :
    s.Title = schema.Title.Value ∧ s.MultipleOf = schema.MultipleOf.Value ∧
      s.Maximum = schema.Maximum.Value ∧ s.ExclusiveMaximum = schema.ExclusiveMaximum.Value ∧
      s.Minimum = schema.Minimum.Value ∧ s.ExclusiveMinimum = schema.ExclusiveMinimum.Value ∧
      s.MaxLength = schema.MaxLength.Value ∧ s.MinLength = schema.MinLength.Value ∧
      s.Pattern = schema.Pattern.Value ∧ s.Format = schema.Format.Value ∧
      s.MaxItems = schema.MaxItems.Value ∧ s.MinItems = schema.MinItems.Value ∧
      s.MaxProperties = schema.MaxProperties.Value ∧
      s.MinProperties = schema.MinProperties.Value ∧
      s.«Type» = schema.«Type».Value ∧
      s.AdditionalProperties = schema.AdditionalProperties.Value ∧
      s.Description = schema.Description.Value ∧ s.Default = schema.Default.Value ∧
      s.Nullable = schema.Nullable.Value ∧ s.ReadOnly = schema.ReadOnly.Value ∧
      s.WriteOnly = schema.WriteOnly.Value ∧ s.Example = schema.Example.Value ∧
      s.Deprecated = schema.Deprecated.Value := by
  have hs := newSchema_some_eq h
  subst hs
  exact ⟨rfl, rfl, rfl, rfl, rfl, rfl, rfl, rfl, rfl, rfl, rfl, rfl, rfl, rfl, rfl, rfl,
    rfl, rfl, rfl, rfl, rfl, rfl, rfl⟩

theorem C7_witness :
    resultEx.Title = exSchema.Title.Value ∧ resultEx.MultipleOf = exSchema.MultipleOf.Value ∧
      resultEx.Maximum = exSchema.Maximum.Value ∧
      resultEx.ExclusiveMaximum = exSchema.ExclusiveMaximum.Value ∧
      resultEx.Minimum = exSchema.Minimum.Value ∧
      resultEx.ExclusiveMinimum = exSchema.ExclusiveMinimum.Value ∧
      resultEx.MaxLength = exSchema.MaxLength.Value ∧
      resultEx.MinLength = exSchema.MinLength.Value ∧
      resultEx.Pattern = exSchema.Pattern.Value ∧ resultEx.Format = exSchema.Format.Value ∧
      resultEx.MaxItems = exSchema.MaxItems.Value ∧
      resultEx.MinItems = exSchema.MinItems.Value ∧
      resultEx.MaxProperties = exSchema.MaxProperties.Value ∧
      resultEx.MinProperties = exSchema.MinProperties.Value ∧
      resultEx.«Type» = exSchema.«Type».Value ∧
      resultEx.AdditionalProperties = exSchema.AdditionalProperties.Value ∧
      resultEx.Description = exSchema.Description.Value ∧
      resultEx.Default = exSchema.Default.Value ∧
      resultEx.Nullable = exSchema.Nullable.Value ∧
      resultEx.ReadOnly = exSchema.ReadOnly.Value ∧
      resultEx.WriteOnly = exSchema.WriteOnly.Value ∧
      resultEx.Example = exSchema.Example.Value ∧
      resultEx.Deprecated = exSchema.Deprecated.Value :=
  C7_scalar_fields_copied exSchema exSched resultEx rfl

/-- C8: the required and enum reference lists are flattened into plain
string sequences, preserving length and per-index values. -/
theorem C8_required_enum_flattened (schema : LowSchema) (sched : Schedule) (s : Schema)
    (h : NewSchema schema sched = some s) :
    s.Required.length = schema.Required.Value.length ∧
      s.Enum.length = schema.Enum.Value.length ∧
      (∀ i : Nat, s.Required[i]? = (schema.Required.Value[i]?).map (fun r => r.Value)) ∧
      (∀ i : Nat, s.Enum[i]? = (schema.Enum.Value[i]?).map (fun e => e.Value)) := by
  have hs := newSchema_some_eq h
  subst hs
  refine ⟨by simp [buildResult], by simp [buildResult], ?_, ?_⟩
  · intro i
    exact List.getElem?_map _ _ i
  · intro i
    exact List.getElem?_map _ _ i

theorem C8_witness :
    resultEx.Required.length = exSchema.Required.Value.length ∧
      resultEx.Required[0]? = (exSchema.Required.Value[0]?).map (fun r => r.Value) ∧
      resultEx.Enum[0]? = (exSchema.Enum.Value[0]?).map (fun e => e.Value) :=
  ⟨(C8_required_enum_flattened exSchema exSched resultEx rfl).1,
   (C8_required_enum_flattened exSchema exSched resultEx rfl).2.2.1 0,
   (C8_required_enum_flattened exSchema exSched resultEx rfl).2.2.2 0⟩

/-- C10: `UniqueItems` is never populated from the low-level node and
keeps the zero value, even when the low-level node carries one, while all
the other declared scalar fields are assigned their low-level values. -/
theorem C10_uniqueItems_never_populated (schema : LowSchema) (sched : Schedule) (s : Schema)
    (h : NewSchema schema sched = some s) :
    s.UniqueItems = 0 ∧
      (s.Title = schema.Title.Value ∧ s.MultipleOf = schema.MultipleOf.Value ∧
        s.Maximum = schema.Maximum.Value ∧
        s.ExclusiveMaximum = schema.ExclusiveMaximum.Value ∧
        s.Minimum = schema.Minimum.Value ∧
        s.ExclusiveMinimum = schema.ExclusiveMinimum.Value ∧
        s.MaxLength = schema.MaxLength.Value ∧ s.MinLength = schema.MinLength.Value ∧
        s.Pattern = schema.Pattern.Value ∧ s.Format = schema.Format.Value ∧
        s.MaxItems = schema.MaxItems.Value ∧ s.MinItems = schema.MinItems.Value ∧
        s.MaxProperties = schema.MaxProperties.Value ∧
        s.MinProperties = schema.MinProperties.Value ∧
        s.«Type» = schema.«Type».Value ∧
        s.AdditionalProperties = schema.AdditionalProperties.Value ∧
        s.Description = schema.Description.Value ∧ s.Default = schema.Default.Value ∧
        s.Nullable = schema.Nullable.Value ∧ s.ReadOnly = schema.ReadOnly.Value ∧
        s.WriteOnly = schema.WriteOnly.Value ∧ s.Example = schema.Example.Value ∧
        s.Deprecated = schema.Deprecated.Value) := by
  have hs := newSchema_some_eq h
  subst hs
  exact ⟨rfl, rfl, rfl, rfl, rfl, rfl, rfl, rfl, rfl, rfl, rfl, rfl, rfl, rfl, rfl, rfl,
    rfl, rfl, rfl, rfl, rfl, rfl, rfl, rfl⟩

theorem C10_witness :
    exSchema.UniqueItems.Value = 5 ∧ resultEx.UniqueItems = 0 :=
  ⟨rfl, (C10_uniqueItems_never_populated exSchema exSched resultEx rfl).1⟩

/-- C4: whenever `NewSchema` returns on a well-formed node under a
realizable schedule, the output sequence of each composition slot has exactly
as many elements as its input sequence. -/
theorem C4_slot_cardinality (schema : LowSchema) (sched : Schedule) (s : Schema)
    (hwf : schema.WellFormed) (hv : sched.Valid schema)
    (h : NewSchema schema sched = some s) :
    s.AllOf.length = schema.AllOf.Value.length ∧
      s.OneOf.length = schema.OneOf.Value.length ∧
      s.AnyOf.length = schema.AnyOf.Value.length ∧
      s.Not.length = schema.Not.Value.length ∧
      s.Items.length = schema.Items.Value.length := by
  have hs := newSchema_some_eq h
  subst hs
  obtain ⟨w1, w2, w3, w4, w5, _⟩ := hwf
  obtain ⟨p1, p2, p3, p4, p5, p6, p7⟩ := hv
  exact ⟨slot_length_eq _ _ _ w1 p1, slot_length_eq _ _ _ w2 p2, slot_length_eq _ _ _ w3 p3,
    slot_length_eq _ _ _ w4 p4, slot_length_eq _ _ _ w5 p5⟩

theorem C4_witness :
    resultEx.AllOf.length = exSchema.AllOf.Value.length ∧
      resultEx.OneOf.length = exSchema.OneOf.Value.length ∧
      resultEx.AnyOf.length = exSchema.AnyOf.Value.length ∧
      resultEx.Not.length = exSchema.Not.Value.length ∧
      resultEx.Items.length = exSchema.Items.Value.length :=
  C4_slot_cardinality exSchema exSched resultEx (by decide) (by decide) rfl

/-- C6: whenever `NewSchema` returns on a well-formed node under a
realizable schedule, the property map has exactly one entry per input
entry and each key maps to the proxy wrapping its own value reference. -/
theorem C6_property_key_integrity (schema : LowSchema) (sched : Schedule) (s : Schema)
    (hwf : schema.WellFormed) (hv : sched.Valid schema)
    (h : NewSchema schema sched = some s) :
    s.Properties.length = schema.Properties.Value.length ∧
      ∀ e ∈ schema.Properties.Value,
        mapLookup s.Properties e.1.Value = some (propProxy e.1 e.2) := by
  have hs := newSchema_some_eq h
  subst hs
  have hperm := hv.2.2.2.2.2.1
  have hnd : (schema.Properties.Value.map (fun e => e.1.Value)).Nodup := hwf.2.2.2.2.2
  have hndArr : (sched.propsArrival.map (fun e => e.1.Value)).Nodup :=
    ((hperm.map _).nodup_iff).mpr hnd
  constructor
  · show (buildPropsAll sched.propsArrival).length = _
    rw [buildPropsAll_length _ hndArr, hperm.length_eq]
  · intro e he
    have heArr : e ∈ sched.propsArrival := hperm.mem_iff.mpr he
    exact buildPropsAll_lookup _ e heArr hndArr

theorem C6_witness :
    resultEx.Properties.length = exSchema.Properties.Value.length ∧
      mapLookup resultEx.Properties propX.1.Value = some (propProxy propX.1 propX.2) :=
  ⟨(C6_property_key_integrity exSchema exSched resultEx (by decide) (by decide) rfl).1,
   (C6_property_key_integrity exSchema exSched resultEx (by decide) (by decide) rfl).2
     propX (by decide)⟩

/-- C5: two runs of `NewSchema` on the same well-formed node that both
return yield structurally equal values, whatever schedules the runtime
chose: a released barrier forces every slot to hold at most one element,
so arrival order cannot reorder slots, and distinct-keyed property inserts
commute. -/
theorem C5_deterministic (schema : LowSchema) (schedA schedB : Schedule) (sA sB : Schema)
    (hwf : schema.WellFormed) (hvA : schedA.Valid schema) (hvB : schedB.Valid schema)
    (hA : NewSchema schema schedA = some sA) (hB : NewSchema schema schedB = some sB) :
    sA = sB := by
  have hshort : schema.AllOf.Value.length ≤ 1 ∧ schema.OneOf.Value.length ≤ 1 ∧
      schema.AnyOf.Value.length ≤ 1 ∧ schema.Not.Value.length ≤ 1 ∧
      schema.Items.Value.length ≤ 1 := by
    by_cases hb : barrierEntered schema = true
    · exact slot_short_of_release schema schedA hwf hvA (newSchema_some_release hA hb)
    · unfold barrierEntered totalProps totalChildren at hb
      simp only [decide_eq_true_eq, not_lt, Nat.le_zero] at hb
      refine ⟨by omega, by omega, by omega, by omega, by omega⟩
  obtain ⟨s1, s2, s3, s4, s5⟩ := hshort
  have eA1 : schedA.allOfArrival = schema.AllOf.Value := perm_eq_of_short hvA.1 s1
  have eA2 : schedA.oneOfArrival = schema.OneOf.Value := perm_eq_of_short hvA.2.1 s2
  have eA3 : schedA.anyOfArrival = schema.AnyOf.Value := perm_eq_of_short hvA.2.2.1 s3
  have eA4 : schedA.notArrival = schema.Not.Value := perm_eq_of_short hvA.2.2.2.1 s4
  have eA5 : schedA.itemsArrival = schema.Items.Value := perm_eq_of_short hvA.2.2.2.2.1 s5
  have eB1 : schedB.allOfArrival = schema.AllOf.Value := perm_eq_of_short hvB.1 s1
  have eB2 : schedB.oneOfArrival = schema.OneOf.Value := perm_eq_of_short hvB.2.1 s2
  have eB3 : schedB.anyOfArrival = schema.AnyOf.Value := perm_eq_of_short hvB.2.2.1 s3
  have eB4 : schedB.notArrival = schema.Not.Value := perm_eq_of_short hvB.2.2.2.1 s4
  have eB5 : schedB.itemsArrival = schema.Items.Value := perm_eq_of_short hvB.2.2.2.2.1 s5
  have eprops : buildPropsAll schedA.propsArrival = buildPropsAll schedB.propsArrival := by
    refine buildPropsAll_perm_eq _ _ (hvA.2.2.2.2.2.1.trans hvB.2.2.2.2.2.1.symm) ?_
    exact ((hvA.2.2.2.2.2.1.map _).nodup_iff).mpr hwf.2.2.2.2.2
  rw [newSchema_some_eq hA, newSchema_some_eq hB]
  unfold buildResult
  rw [eA1, eA2, eA3, eA4, eA5, eB1, eB2, eB3, eB4, eB5, eprops]

theorem C5_witness : resultEx = buildResult exSchema exSched2 :=
  C5_deterministic exSchema exSched exSched2 resultEx (buildResult exSchema exSched2)
    (by decide) (by decide) (by decide) rfl rfl

set_option maxRecDepth 8000 in
/-- C2: the claim says materialization terminates on every well-formed
node, in particular on a node with at least 1000 properties and 5 elements
in a composition slot.  On exactly such a node the child target of the
loop is 5 while only one coordinator signal ever arrives, so the barrier
never releases and the call never returns. -/
theorem C2_stress_input_deadlocks :
    cExLarge.WellFormed ∧ totalChildren cExLarge = 5 ∧ totalProps cExLarge = 1000 ∧
      polySignals cExLarge = 1 ∧ schedLarge.Valid cExLarge ∧
      NewSchema cExLarge schedLarge = none := by
  have htc : totalChildren cExLarge = 5 := by
    unfold totalChildren
    have e1 : cExLarge.AllOf.Value = allOf5 := rfl
    have e2 : cExLarge.OneOf.Value = [] := rfl
    have e3 : cExLarge.AnyOf.Value = [] := rfl
    have e4 : cExLarge.Items.Value = [] := rfl
    have e5 : cExLarge.Not.Value = [] := rfl
    rw [e1, e2, e3, e4, e5]
    unfold allOf5
    simp
  have htp : totalProps cExLarge = 1000 := by
    unfold totalProps
    have e : cExLarge.Properties.Value = props1000 := rfl
    rw [e]
    unfold props1000
    simp
  have hwf : cExLarge.WellFormed := by
    refine ⟨rfl, rfl, rfl, rfl, rfl, ?_⟩
    have e : cExLarge.Properties.Value = props1000 := rfl
    rw [e]
    have hkeys : props1000.map (fun e => e.1.Value)
        = (List.range 1000).map (fun i => String.mk (List.replicate i 'a')) := by
      unfold props1000
      rw [List.map_map]
      rfl
    rw [hkeys]
    refine (List.nodup_range 1000).map ?_
    intro i j hij
    have hlen := congrArg (fun s => s.data.length) hij
    simpa using hlen
  have hvalid : schedLarge.Valid cExLarge := by
    refine ⟨.refl _, .refl _, .refl _, .refl _, .refl _, .refl _, ?_⟩
    have hps : polySignals cExLarge = 1 := rfl
    rw [hps, htp]
    exact .refl _
  have hloop : barrierLoop schedLarge.signalArrival 0 0 (totalChildren cExLarge)
      (totalProps cExLarge) = false := by
    by_contra hc
    rw [Bool.not_eq_false] at hc
    have hb := barrierLoop_poly_bound _ _ _ _ _ hc
    have hcp : countPoly schedLarge.signalArrival = 1 := by
      show countPoly (Signal.poly :: List.replicate 1000 Signal.prop) = 1
      rw [countPoly_cons_poly]
      have hz : countPoly (List.replicate 1000 Signal.prop) = 0 := by
        have := countPoly_signals 0 1000
        simpa using this
      rw [hz]
    rw [hcp, htc] at hb
    omega
  refine ⟨hwf, htc, htp, rfl, hvalid, ?_⟩
  have hent : barrierEntered cExLarge = true := by
    unfold barrierEntered
    rw [htc, htp]
    rfl
  unfold NewSchema
  rw [hent, hloop]
  simp
